import Mathlib

/-!
Shallow embedding of the key-sign signature core
(`src/components/KeyboardSignature.tsx`) and verification of its
specification.  Characters are modelled as Lean `Char` (Unicode scalar
values), JavaScript 32-bit unsigned integer arithmetic as `Nat` taken
modulo `2 ^ 32`, key-grid coordinates as exact rationals, and the
floating-point direction/length computations as real-number arithmetic.
-/

namespace KeySign

/-- The five style classes of a consecutive character pair
(`type PairClass = "UU" | "UL" | "LU" | "LL" | "NUM"`). -/
inductive PairClass where
  | UU | UL | LU | LL | NUM
  deriving DecidableEq, Repr

/-- `const isNumOrUnd = (c) => /[0-9_]/.test(c)`. -/
def isNumOrUnd (c : Char) : Bool :=
  ('0' ≤ c && c ≤ '9') || c = '_'

/-- `const isUpper = (c) => /^[A-Z]$/.test(c)`. -/
def isUpper (c : Char) : Bool :=
  'A' ≤ c && c ≤ 'Z'

/-- `const isLower = (c) => /^[a-z]$/.test(c)`. -/
def isLower (c : Char) : Bool :=
  'a' ≤ c && c ≤ 'z'

/-- One step of the FNV-1a loop body:
`h ^= s.charCodeAt(i); h = Math.imul(h, 0x01000193)`, on 32-bit words. -/
def hash32Step (h : ℕ) (c : Char) : ℕ :=
  ((h ^^^ c.toNat) * 0x01000193) % 2 ^ 32

/-- `function hash32(s)`: the 32-bit FNV-1a hash of a string
(accumulator starts at `0x811c9dc5`). -/
def hash32 (s : String) : ℕ :=
  s.data.foldl hash32Step 0x811c9dc5

/-- `function classifyPair(a, b): PairClass`. -/
def classifyPair (a b : Char) : PairClass :=
  if isNumOrUnd a || isNumOrUnd b then .NUM
  else if isUpper a && isUpper b then .UU
  else if isLower a && isLower b then .LL
  else if isUpper a && isLower b then .UL
  else .LU

/-- `const DASH_ALPHABET: Record<PairClass, number[][]>`. -/
def DASH_ALPHABET : PairClass → List (List ℕ)
  | .UU => [[]]
  | .UL => [[8, 6], [12, 4, 2, 4]]
  | .LU => [[8, 6], [3, 3, 1, 3]]
  | .LL => [[2, 6], [3, 3, 1, 3]]
  | .NUM => [[1, 8], [2, 8]]

/-- `function legacyDash(a, b)` (always returns an array on these inputs). -/
def legacyDash (a b : Char) : List ℕ :=
  if isNumOrUnd a || isNumOrUnd b then [1, 8]
  else if isUpper a && isUpper b then []
  else [8, 6]

/-- One xorshift update of `makeRng`'s closure:
`x ^= x << 13; x ^= x >>> 17; x ^= x << 5`, on 32-bit words. -/
def xorshiftStep (x : ℕ) : ℕ :=
  let x1 := x ^^^ (x * 2 ^ 13 % 2 ^ 32)
  let x2 := x1 ^^^ (x1 / 2 ^ 17)
  x2 ^^^ (x2 * 2 ^ 5 % 2 ^ 32)

/-- The internal state of `makeRng(seedStr)` after `k` update steps;
state 0 is `hash32(seedStr) || 1`. -/
def rngState (seedStr : String) : ℕ → ℕ
  | 0 => if hash32 seedStr = 0 then 1 else hash32 seedStr
  | k + 1 => xorshiftStep (rngState seedStr k)

/-- The `k`-th value (0-indexed) produced by the function returned by
`makeRng(seedStr)`: `(x >>> 0) / 0xffffffff` after the `k + 1`-st update. -/
def rngOut (seedStr : String) (k : ℕ) : ℚ :=
  (rngState seedStr (k + 1) : ℚ) / 0xffffffff

/-- The index selected in `dashForPair`:
`Math.floor(rng() * choices.length) % choices.length`, where `draw` is the
value produced by `rng()`. -/
def dashIdx (cls : PairClass) (draw : ℚ) : ℤ :=
  ⌊draw * (DASH_ALPHABET cls).length⌋ % ((DASH_ALPHABET cls).length : ℤ)

/-- `function dashForPair(a, b, rng)`, with the single value drawn from the
generator passed explicitly as `draw`. -/
def dashForPair (a b : Char) (draw : ℚ) : List ℕ :=
  let klass := classifyPair a b
  (DASH_ALPHABET klass).getD (dashIdx klass draw).toNat []

/-- The qwerty entry table of `keyboardLayouts`, in source order:
character key, grid x, grid y. -/
def qwertyKeys : List (Char × ℚ × ℚ) :=
  [('1', 0, -1), ('2', 1, -1), ('3', 2, -1), ('4', 3, -1), ('5', 4, -1),
   ('6', 5, -1), ('7', 6, -1), ('8', 7, -1), ('9', 8, -1), ('0', 9, -1),
   ('_', 10, -1),
   ('Q', 0.5, 0), ('W', 1.5, 0), ('E', 2.5, 0), ('R', 3.5, 0), ('T', 4.5, 0),
   ('Y', 5.5, 0), ('U', 6.5, 0), ('I', 7.5, 0), ('O', 8.5, 0), ('P', 9.5, 0),
   ('A', 0.75, 1), ('S', 1.75, 1), ('D', 2.75, 1), ('F', 3.75, 1),
   ('G', 4.75, 1), ('H', 5.75, 1), ('J', 6.75, 1), ('K', 7.75, 1),
   ('L', 8.75, 1),
   ('Z', 1.25, 2), ('X', 2.25, 2), ('C', 3.25, 2), ('V', 4.25, 2),
   ('B', 5.25, 2), ('N', 6.25, 2), ('M', 7.25, 2)]

/-- `key in layout` / `layout[key]` lookup for the qwerty table. -/
def layoutLookup (c : Char) : Option (ℚ × ℚ) :=
  qwertyKeys.lookup c

/-- Visual constant `KEY_SPACING = 60`. -/
def KEY_SPACING : ℚ := 60

/-- Visual constant `KEY_W = 56`. -/
def KEY_W : ℚ := 56

/-- Visual constant `KEY_H = 48`. -/
def KEY_H : ℚ := 48

/-- Visual constant `PAD_X = 18`. -/
def PAD_X : ℚ := 18

/-- Visual constant `PAD_Y = 18`. -/
def PAD_Y : ℚ := 18

/-- `minX = Math.min(...all.map(k => k.x))` over the qwerty table. -/
def minX : ℚ := ((qwertyKeys.map fun e => e.2.1).min?).getD 0

/-- `minY = Math.min(...all.map(k => k.y))` over the qwerty table. -/
def minY : ℚ := ((qwertyKeys.map fun e => e.2.2).min?).getD 0

/-- `SHIFT_X = -minX * KEY_SPACING`. -/
def SHIFT_X : ℚ := -minX * KEY_SPACING

/-- `SHIFT_Y = -minY * KEY_SPACING`. -/
def SHIFT_Y : ℚ := -minY * KEY_SPACING

/-- A resolved point (`type Pt`): pixel-space center of the key a character
maps to, together with the original character (exact case). -/
structure Pt where
  x : ℚ
  y : ℚ
  ch : Char
  deriving DecidableEq, Repr

/-- `getKeyCenter(ch)`: letters are looked up case-insensitively via
`toUpperCase`, anything else as-is; unsupported characters give `none`. -/
def getKeyCenter (ch : Char) : Option Pt :=
  let isLetter := ('a' ≤ ch && ch ≤ 'z') || ('A' ≤ ch && ch ≤ 'Z')
  let key := if isLetter then ch.toUpper else ch
  match layoutLookup key with
  | none => none
  | some (x, y) =>
      some ⟨x * KEY_SPACING + SHIFT_X + PAD_X + KEY_W / 2,
            y * KEY_SPACING + SHIFT_Y + PAD_Y + KEY_H / 2, ch⟩

/-- `name.split("").map(getKeyCenter).filter(Boolean)`: the resolved-point
sequence of a name (unresolved characters are skipped). -/
def resolvePoints (name : String) : List Pt :=
  name.data.filterMap getKeyCenter

/-- `Math.atan2(y, x)` in exact real arithmetic: angle of the point
`(x, y)` in `(-π, π]`, with `atan2(0, 0) = 0`. -/
noncomputable def atan2 (y x : ℝ) : ℝ :=
  if 0 < x then Real.arctan (y / x)
  else if x < 0 then
    (if 0 ≤ y then Real.arctan (y / x) + Real.pi
     else Real.arctan (y / x) - Real.pi)
  else
    (if 0 < y then Real.pi / 2 else if y < 0 then -(Real.pi / 2) else 0)

/-- `function direction8(dx, dy)`:
`(Math.round(Math.atan2(dy, dx) / (Math.PI / 4)) + 8) % 8`
(`Math.round` rounds half toward `+∞`, as does Lean's `round`). -/
noncomputable def direction8 (dx dy : ℝ) : ℤ :=
  (round (atan2 dy dx / (Real.pi / 4)) + 8) % 8

/-- `function lengthBin(len)`. -/
noncomputable def lengthBin (len : ℝ) : ℕ :=
  if len < 40 then 0
  else if len < 80 then 1
  else if len < 120 then 2
  else 3

/-- `Math.hypot(dx, dy)` in exact real arithmetic. -/
noncomputable def hypot (dx dy : ℝ) : ℝ :=
  Real.sqrt (dx ^ 2 + dy ^ 2)

/-- `const clamp = (v, lo, hi) => Math.max(lo, Math.min(hi, v))`. -/
noncomputable def clamp (v lo hi : ℝ) : ℝ :=
  max lo (min hi v)

/-- Integer clamp used for the HSL saturation/lightness channels. -/
def clampInt (v lo hi : ℤ) : ℤ :=
  max lo (min hi v)

/-- The string form of a `PairClass` (its TypeScript literal). -/
def clsChars : PairClass → List Char
  | .UU => ['U', 'U']
  | .UL => ['U', 'L']
  | .LU => ['L', 'U']
  | .LL => ['L', 'L']
  | .NUM => ['N', 'U', 'M']

/-- The per-class saturation/lightness base used by `colorForPair`. -/
def colorBase : PairClass → ℤ × ℤ
  | .UU => (45, 58)
  | .UL => (60, 52)
  | .LU => (60, 52)
  | .LL => (55, 48)
  | .NUM => (35, 64)

/-- The hue/saturation/lightness triple rendered as
`hsl(<hue>deg <s>% <l>%)` by the component (render-only). -/
structure ColorHSL where
  hue : ℕ
  s : ℤ
  l : ℤ
  deriving DecidableEq, Repr

/-- `function colorForPair(prev, curr, pxLen)`: hue from
`hash32(prev + curr + "|" + klass) % 360`, saturation/lightness from the
class base with a rounded length-derived lightness delta, both clamped. -/
noncomputable def colorForPair (prev curr : Char) (pxLen : ℝ) : ColorHSL :=
  let klass := classifyPair prev curr
  let seed : String := ⟨[prev, curr, '|'] ++ clsChars klass⟩
  let hue := hash32 seed % 360
  let base := colorBase klass
  let lenClamped := clamp pxLen 0 120
  let deltaL : ℤ := round (lenClamped / 120 * 12) - 6
  ⟨hue, clampInt base.1 30 80, clampInt (base.2 + deltaL) 20 80⟩

/-- The two cubic control points produced by
`catmullRomCubicForSegment(p0, p1, p2, p3, alpha)`. -/
structure CubicControls where
  c1x : ℝ
  c1y : ℝ
  c2x : ℝ
  c2y : ℝ

/-- `function catmullRomCubicForSegment(p0, p1, p2, p3, alpha)`: each
inter-point distance is raised to the power `alpha` (with `|| 1` guards
substituting 1 for a zero denominator), tangents are formed from the
neighbor differences, and the controls are the endpoints offset by a third
of each tangent. -/
noncomputable def catmullRomCubicForSegment
    (p0 p1 p2 p3 : ℝ × ℝ) (alpha : ℝ) : CubicControls :=
  let d01 := let p := hypot (p1.1 - p0.1) (p1.2 - p0.2) ^ alpha
             if p = 0 then 1 else p
  let d12 := let p := hypot (p2.1 - p1.1) (p2.2 - p1.2) ^ alpha
             if p = 0 then 1 else p
  let d23 := let p := hypot (p3.1 - p2.1) (p3.2 - p2.2) ^ alpha
             if p = 0 then 1 else p
  let t1 := d01 + d12
  let t2 := d12 + d23
  let m1x := (p2.1 - p1.1) / d12 - (p1.1 - p0.1) / d01
  let m1y := (p2.2 - p1.2) / d12 - (p1.2 - p0.2) / d01
  let m2x := (p3.1 - p2.1) / d23 - (p2.1 - p1.1) / d12
  let m2y := (p3.2 - p2.2) / d23 - (p2.2 - p1.2) / d12
  let tx1 := m1x * d12 / (if t1 = 0 then 1 else t1)
  let ty1 := m1y * d12 / (if t1 = 0 then 1 else t1)
  let tx2 := m2x * d12 / (if t2 = 0 then 1 else t2)
  let ty2 := m2y * d12 / (if t2 = 0 then 1 else t2)
  ⟨p1.1 + tx1 / 3, p1.2 + ty1 / 3, p2.1 - tx2 / 3, p2.2 - ty2 / 3⟩

/-- Per-segment codec features (`type CodecSeg`). -/
structure CodecSeg where
  a : Char
  b : Char
  cls : PairClass
  dir : ℤ
  lb : ℕ
  deriving DecidableEq, Repr

/-- The drawable geometry of one segment: the straight-line `M…L…` path or
the cubic `M…C…` path (render-only, never part of the codec). -/
inductive PathGeom where
  | line (p1 p2 : ℚ × ℚ)
  | cubic (p1 : ℚ × ℚ) (c1 c2 : ℝ × ℝ) (p2 : ℚ × ℚ)

/-- One rendered segment (`type RenderSeg`): geometry, dash pattern, color
and the codec features. -/
structure RenderSeg where
  geom : PathGeom
  dash : List ℕ
  color : ColorHSL
  feat : CodecSeg

/-- The seed string `` `key-sign:${name}:${currentKeyboardLayout}` ``. -/
def rngSeed (name : String) : String :=
  "key-sign:" ++ name ++ ":qwerty"

/-- The loop body of the `segments` memo: the `i`-th rendered segment over
the resolved points `pts` (the neighbor indices are clamped at the two path
ends exactly as in the source: `p0 = i - 1 >= 0 ? pts[i-1] : p1`,
`p3 = i + 2 < pts.length ? pts[i+2] : p2`).  The `i`-th segment consumes
the `i`-th generator draw in dash-alphabet mode and no draw otherwise. -/
noncomputable def buildSeg
    (pts : List Pt) (name : String) (useDashAlphabet useCatmullRom : Bool)
    (i : ℕ) : RenderSeg :=
  let dflt : Pt := ⟨0, 0, ' '⟩
  let p1 := pts.getD i dflt
  let p2 := pts.getD (i + 1) dflt
  let p0 := if i = 0 then p1 else pts.getD (i - 1) dflt
  let p3 := if i + 2 < pts.length then pts.getD (i + 2) dflt else p2
  let dx : ℚ := p2.x - p1.x
  let dy : ℚ := p2.y - p1.y
  let segLen : ℝ := hypot (dx : ℝ) (dy : ℝ)
  let dir := direction8 (dx : ℝ) (dy : ℝ)
  let lb := lengthBin segLen
  let dash := if useDashAlphabet then
      dashForPair p1.ch p2.ch (rngOut (rngSeed name) i)
    else legacyDash p1.ch p2.ch
  let color := colorForPair p1.ch p2.ch segLen
  let feat : CodecSeg := ⟨p1.ch, p2.ch, classifyPair p1.ch p2.ch, dir, lb⟩
  if useCatmullRom then
    let c := catmullRomCubicForSegment
      ((p0.x : ℝ), (p0.y : ℝ)) ((p1.x : ℝ), (p1.y : ℝ))
      ((p2.x : ℝ), (p2.y : ℝ)) ((p3.x : ℝ), (p3.y : ℝ)) 0
    ⟨.cubic (p1.x, p1.y) (c.c1x, c.c1y) (c.c2x, c.c2y) (p2.x, p2.y),
     dash, color, feat⟩
  else
    ⟨.line (p1.x, p1.y) (p2.x, p2.y), dash, color, feat⟩

/-- The `segments` memo of the component: one `RenderSeg` per consecutive
pair of resolved points (`pts = resolvePoints name` written inline).
`useDashAlphabet` selects dash mode, `useCatmullRom` selects curve mode. -/
noncomputable def segments
    (name : String) (useDashAlphabet useCatmullRom : Bool) : List RenderSeg :=
  if name = "" then []
  else if (resolvePoints name).length < 2 then []
  else
    (List.range ((resolvePoints name).length - 1)).map
      (buildSeg (resolvePoints name) name useDashAlphabet useCatmullRom)

/-- A hexadecimal digit character, lowercase (as `Number.toString(16)`). -/
def hexDigitCh (d : ℕ) : Char :=
  match d with
  | 0 => '0' | 1 => '1' | 2 => '2' | 3 => '3' | 4 => '4'
  | 5 => '5' | 6 => '6' | 7 => '7' | 8 => '8' | 9 => '9'
  | 10 => 'a' | 11 => 'b' | 12 => 'c' | 13 => 'd' | 14 => 'e'
  | _ => 'f'

/-- Hexadecimal digit extraction with explicit fuel (structural recursion;
the fuel is always sufficient when it exceeds the number of digits). -/
def natToHexAux (fuel : ℕ) (n : ℕ) : List Char :=
  match fuel with
  | 0 => []
  | fuel + 1 =>
      if n < 16 then [hexDigitCh n]
      else natToHexAux fuel (n / 16) ++ [hexDigitCh (n % 16)]

/-- The lowercase hexadecimal digit list of `n` (`n.toString(16)`). -/
def natToHex (n : ℕ) : List Char :=
  natToHexAux (n + 1) n

/-- `n.toString(16).padStart(8, "0")`. -/
def toHex8 (n : ℕ) : String :=
  let l := natToHex n
  ⟨List.replicate (8 - l.length) '0' ++ l⟩

/-- `name.toLowerCase()`, modelled as per-character ASCII lowering
(`Char.toLower`). The program's `toLowerCase` applies the full Unicode
case mapping, with which this model agrees exactly on ASCII strings
(on `A`–`Z` both add 32, and both fix every other ASCII character);
statements that read a hash through this model are therefore made for
ASCII names only. -/
def lowerStr (s : String) : String :=
  ⟨s.data.map Char.toLower⟩

/-- The canonical codec record (`type Codec`). -/
structure Codec where
  v : String
  layout : String
  dash : String
  color : String
  len : ℕ
  hash : String
  seg : List CodecSeg
  deriving DecidableEq, Repr

/-- `function buildCodec(name, layout, useDashAlphabet, segs)`. -/
def buildCodec
    (name : String) (layout : String) (useDashAlphabet : Bool)
    (segs : List CodecSeg) : Codec :=
  let lower := lowerStr name
  let h := toHex8 (hash32 (layout ++ "|" ++ lower))
  { v := "ks1"
    layout := layout
    dash := if useDashAlphabet then "abc" else "legacy"
    color := "bigram-hsl-v1"
    len := name.length
    hash := h
    seg := segs }

/-- The `codec` memo of the component: `null` when the name is empty or no
segment was built, otherwise `buildCodec` over the segment features. -/
noncomputable def pipelineCodec
    (name : String) (useDashAlphabet useCatmullRom : Bool) : Option Codec :=
  let segs := segments name useDashAlphabet useCatmullRom
  if name = "" ∨ segs.length = 0 then none
  else some (buildCodec name "qwerty" useDashAlphabet (segs.map RenderSeg.feat))

/-- Modelled from the spec (§4.2): the 5-rule priority classifier, written
with the spec's wording ("digit (0–9) or underscore", "uppercase letter",
"lowercase letter"), to be compared with the source's `classifyPair`. -/
def classifySpec (a b : Char) : PairClass :=
  if (('0' ≤ a ∧ a ≤ '9') ∨ a = '_') ∨ (('0' ≤ b ∧ b ≤ '9') ∨ b = '_') then
    .NUM
  else if ('A' ≤ a ∧ a ≤ 'Z') ∧ ('A' ≤ b ∧ b ≤ 'Z') then .UU
  else if ('a' ≤ a ∧ a ≤ 'z') ∧ ('a' ≤ b ∧ b ≤ 'z') then .LL
  else if ('A' ≤ a ∧ a ≤ 'Z') ∧ ('a' ≤ b ∧ b ≤ 'z') then .UL
  else .LU

/-- The sixteen lowercase hexadecimal digit characters: the ten decimal
digits followed by the six letters. -/
def hexLowerChars : List Char :=
  ['0', '1', '2', '3', '4', '5', '6', '7', '8', '9'] ++
    ['a', 'b', 'c', 'd', 'e', 'f']

-- ### Codec serialization and deserialization (C9)

/-- The single-character replacement of `escapeXml`'s regex callback. -/
def escapeXmlChar (c : Char) : List Char :=
  if c = '<' then ['&', 'l', 't', ';']
  else if c = '>' then ['&', 'g', 't', ';']
  else if c = '&' then ['&', 'a', 'm', 'p', ';']
  else if c = '\'' then ['&', 'a', 'p', 'o', 's', ';']
  else if c = '"' then ['&', 'q', 'u', 'o', 't', ';']
  else [c]

/-- `function escapeXml(s)`: one pass replacing each of the five markup
special characters by its entity. -/
def escapeXml (s : List Char) : List Char :=
  (s.map escapeXmlChar).flatten

/-- One decoding step of the entity unescaper: the decoded character and
the remaining input, where an `&` opening one of the five entities of
§4.5 consumes the whole entity and any other character consumes itself. -/
def unescapeStep (c : Char) (r : List Char) : Char × List Char :=
  if c = '&' then
    match r with
    | 'l' :: 't' :: ';' :: r' => ('<', r')
    | 'g' :: 't' :: ';' :: r' => ('>', r')
    | 'a' :: 'm' :: 'p' :: ';' :: r' => ('&', r')
    | 'a' :: 'p' :: 'o' :: 's' :: ';' :: r' => ('\'', r')
    | 'q' :: 'u' :: 'o' :: 't' :: ';' :: r' => ('"', r')
    | _ => (c, r)
  else (c, r)

/-- Modelled from the spec: standard entity unescaping for the five
entities of §4.5 (the repository contains no decoder; deserialization is
described only in the spec). -/
def unescapeXml : List Char → List Char
  | [] => []
  | c :: r =>
      let s := unescapeStep c r
      s.1 :: unescapeXml s.2
  termination_by l => l.length
  decreasing_by
    have h : (unescapeStep c r).2.length ≤ r.length := by
      unfold unescapeStep
      split
      · split <;> simp <;> omega
      · simp
    simp only [List.length_cons]
    omega

/-- JSON escaping of one string character (`JSON.stringify` escapes the
quote and the backslash; control-character escapes are not modelled, as no
reachable codec string contains them). -/
def jsonEscChar (c : Char) : List Char :=
  if c = '"' then ['\\', '"']
  else if c = '\\' then ['\\', '\\']
  else [c]

/-- A JSON string literal: `"` + escaped content + `"`. -/
def jsonString (s : List Char) : List Char :=
  '"' :: ((s.map jsonEscChar).flatten ++ ['"'])

/-- A decimal digit character. -/
def digitCh (d : ℕ) : Char :=
  match d with
  | 0 => '0' | 1 => '1' | 2 => '2' | 3 => '3' | 4 => '4'
  | 5 => '5' | 6 => '6' | 7 => '7' | 8 => '8' | _ => '9'

/-- Decimal digit extraction with explicit fuel (structural recursion). -/
def natCharsAux (fuel : ℕ) (n : ℕ) : List Char :=
  match fuel with
  | 0 => []
  | fuel + 1 =>
      if n < 10 then [digitCh n]
      else natCharsAux fuel (n / 10) ++ [digitCh (n % 10)]

/-- The decimal digit list of `n` (JSON number rendering). -/
def natChars (n : ℕ) : List Char :=
  natCharsAux (n + 1) n

/-- The decimal rendering of an integer. -/
def intChars (i : ℤ) : List Char :=
  if i < 0 then '-' :: natChars i.natAbs else natChars i.toNat

/-- The inter-token whitespace layout of a JSON rendering of a codec:
`JSON.stringify(codec)` uses the all-empty layout and
`JSON.stringify(codec, null, 2)` the two-space-indented one. -/
structure JsonWs where
  objItem : List Char
  colon : List Char
  objEnd : List Char
  arrItem : List Char
  arrEnd : List Char
  segItem : List Char
  segEnd : List Char

/-- The layout of `JSON.stringify(codec)`. -/
def compactWs : JsonWs :=
  ⟨[], [], [], [], [], [], []⟩

/-- The layout of `JSON.stringify(codec, null, 2)`. -/
def prettyWs : JsonWs :=
  ⟨['\n', ' ', ' '], [' '], ['\n'],
   ['\n', ' ', ' ', ' ', ' '], ['\n', ' ', ' '],
   ['\n', ' ', ' ', ' ', ' ', ' ', ' '], ['\n', ' ', ' ', ' ', ' ']⟩

/-- A JSON object key together with its colon: `"key":`. -/
def jsonKey (k : String) : List Char :=
  '"' :: (k.data ++ ['"', ':'])

/-- One segment object, `{"a":…,"b":…,"cls":…,"dir":…,"lb":…}`, keys in
insertion order. -/
def renderSegObj (w : JsonWs) (s : CodecSeg) : List Char :=
  '\x7b' :: (w.segItem ++ jsonKey "a" ++ w.colon ++ jsonString [s.a] ++
    [','] ++ w.segItem ++ jsonKey "b" ++ w.colon ++ jsonString [s.b] ++
    [','] ++ w.segItem ++ jsonKey "cls" ++ w.colon ++
      jsonString (clsChars s.cls) ++
    [','] ++ w.segItem ++ jsonKey "dir" ++ w.colon ++ intChars s.dir ++
    [','] ++ w.segItem ++ jsonKey "lb" ++ w.colon ++ natChars s.lb ++
    w.segEnd ++ ['\x7d'])

/-- The tail of a nonempty segment array: `,` + element, repeated, then
the closing bracket. -/
def renderSegsTail (w : JsonWs) : List CodecSeg → List Char
  | [] => w.arrEnd ++ [']']
  | s :: rest => ',' :: (w.arrItem ++ renderSegObj w s ++ renderSegsTail w rest)

/-- A segment array: `[]` when empty, else bracketed elements. -/
def renderSegArr (w : JsonWs) : List CodecSeg → List Char
  | [] => ['[', ']']
  | s :: rest => '[' :: (w.arrItem ++ renderSegObj w s ++ renderSegsTail w rest)

/-- The JSON rendering of a codec record, keys in insertion order
(`v, layout, dash, color, len, hash, seg`), parameterized by the
whitespace layout. -/
def renderCodec (w : JsonWs) (r : Codec) : List Char :=
  '\x7b' :: (w.objItem ++ jsonKey "v" ++ w.colon ++ jsonString r.v.data ++
    [','] ++ w.objItem ++ jsonKey "layout" ++ w.colon ++
      jsonString r.layout.data ++
    [','] ++ w.objItem ++ jsonKey "dash" ++ w.colon ++
      jsonString r.dash.data ++
    [','] ++ w.objItem ++ jsonKey "color" ++ w.colon ++
      jsonString r.color.data ++
    [','] ++ w.objItem ++ jsonKey "len" ++ w.colon ++ natChars r.len ++
    [','] ++ w.objItem ++ jsonKey "hash" ++ w.colon ++
      jsonString r.hash.data ++
    [','] ++ w.objItem ++ jsonKey "seg" ++ w.colon ++ renderSegArr w r.seg ++
    w.objEnd ++ ['\x7d'])

/-- `exportCODECtxt`'s payload: `JSON.stringify(codec, null, 2)`. -/
def serializeCodecText (r : Codec) : String :=
  ⟨renderCodec prettyWs r⟩

/-- `JSON.stringify(codec)`: the compact form embedded in the SVG. -/
def serializeCodecCompact (r : Codec) : List Char :=
  renderCodec compactWs r

/-- The fixed document text of `exportCODECsvg` before the escaped JSON. -/
def svgHeadChars : List Char :=
  ("<svg xmlns=\"http://www.w3.org/2000/svg\" width=\"0\" height=\"0\">\n" ++
   "  <metadata id=\"key-sign-codec\">").data

/-- The fixed document text of `exportCODECsvg` after the escaped JSON. -/
def svgTailChars : List Char :=
  "</metadata>\n</svg>".data

/-- `exportCODECsvg`'s document: the compact JSON, XML-escaped, inside a
fixed `<metadata>` skeleton. -/
def serializeCodecEmbedded (r : Codec) : String :=
  ⟨svgHeadChars ++ escapeXml (serializeCodecCompact r) ++ svgTailChars⟩

-- ### Parser (modelled from the spec; the repository has no deserializer)

/-- JSON whitespace. -/
def isWsCh (c : Char) : Bool :=
  c = ' ' || c = '\n' || c = '\t' || c = '\r'

/-- Every character of `w` is JSON whitespace. -/
def WsOk (w : List Char) : Prop :=
  ∀ c ∈ w, isWsCh c = true

/-- Every field of the layout is JSON whitespace. -/
def WsStyleOk (w : JsonWs) : Prop :=
  WsOk w.objItem ∧ WsOk w.colon ∧ WsOk w.objEnd ∧ WsOk w.arrItem ∧
  WsOk w.arrEnd ∧ WsOk w.segItem ∧ WsOk w.segEnd


/-- Drop leading JSON whitespace. -/
def skipWs (l : List Char) : List Char :=
  l.dropWhile isWsCh

/-- Expect an exact token at the head of the input. -/
def expectTok (t : List Char) (l : List Char) : Option (List Char) :=
  if List.isPrefixOf t l then some (l.drop t.length) else none

/-- Expect a token after optional whitespace. -/
def pTok (t : List Char) (l : List Char) : Option (List Char) :=
  expectTok t (skipWs l)

/-- The body of a JSON string literal, after the opening quote: stops at
the closing quote and decodes the two modelled escapes. -/
def pStringBody : List Char → Option (List Char × List Char)
  | [] => none
  | c :: r =>
      if c = '"' then some ([], r)
      else if c = '\\' then
        match r with
        | '"' :: rr => (pStringBody rr).map fun p => ('"' :: p.1, p.2)
        | '\\' :: rr => (pStringBody rr).map fun p => ('\\' :: p.1, p.2)
        | _ => none
      else (pStringBody r).map fun p => (c :: p.1, p.2)
  termination_by l => l.length
  decreasing_by
    all_goals simp only [List.length_cons]
    all_goals omega

/-- A JSON string literal after optional whitespace. -/
def pString (l : List Char) : Option (List Char × List Char) :=
  match skipWs l with
  | '"' :: r => pStringBody r
  | _ => none

/-- Decimal digit test. -/
def isDigitCh (c : Char) : Bool :=
  '0' ≤ c && c ≤ '9'

/-- The input does not start with a decimal digit (so a digit run ends
exactly where it should). -/
def NotDigitHead (l : List Char) : Prop :=
  ∀ c, l.head? = some c → isDigitCh c = false

/-- A nonempty run of decimal digits, as a natural number. -/
def pNat (l : List Char) : Option (ℕ × List Char) :=
  if (l.takeWhile isDigitCh).isEmpty then none
  else some
    ((l.takeWhile isDigitCh).foldl (fun a c => a * 10 + (c.toNat - 48)) 0,
     l.drop (l.takeWhile isDigitCh).length)

/-- An optionally negated decimal integer. -/
def pInt (l : List Char) : Option (ℤ × List Char) :=
  if l.head? = some '-' then (pNat l.tail).map fun p => (-(p.1 : ℤ), p.2)
  else (pNat l).map fun p => ((p.1 : ℤ), p.2)

/-- The inverse of `clsChars`. -/
def clsOfChars (s : List Char) : Option PairClass :=
  if s = ['U', 'U'] then some .UU
  else if s = ['U', 'L'] then some .UL
  else if s = ['L', 'U'] then some .LU
  else if s = ['L', 'L'] then some .LL
  else if s = ['N', 'U', 'M'] then some .NUM
  else none

/-- Expect `"key":` after optional whitespace. -/
def pKey (k : String) (l : List Char) : Option (List Char) :=
  pTok (jsonKey k) l

/-- A `"key": "string"` field. -/
def pStrField (k : String) (l : List Char) :
    Option (List Char × List Char) := do
  let l1 ← pKey k l
  pString l1

/-- A `"key": "c"` field whose string must hold exactly one character. -/
def pCharField (k : String) (l : List Char) : Option (Char × List Char) := do
  let (s, r) ← pStrField k l
  match s with
  | [c] => some (c, r)
  | _ => none

/-- A `"key": "<class>"` field. -/
def pClsField (k : String) (l : List Char) :
    Option (PairClass × List Char) := do
  let (s, r) ← pStrField k l
  match clsOfChars s with
  | some x => some (x, r)
  | none => none

/-- A `"key": <nat>` field. -/
def pNatField (k : String) (l : List Char) : Option (ℕ × List Char) := do
  let l1 ← pKey k l
  pNat (skipWs l1)

/-- A `"key": <int>` field. -/
def pIntField (k : String) (l : List Char) : Option (ℤ × List Char) := do
  let l1 ← pKey k l
  pInt (skipWs l1)

/-- One segment object. -/
def pSegObj (l : List Char) : Option (CodecSeg × List Char) := do
  let l0 ← pTok ['\x7b'] l
  let (a, l1) ← pCharField "a" l0
  let l1b ← pTok [','] l1
  let (b, l2) ← pCharField "b" l1b
  let l2b ← pTok [','] l2
  let (cls, l3) ← pClsField "cls" l2b
  let l3b ← pTok [','] l3
  let (dir, l4) ← pIntField "dir" l3b
  let l4b ← pTok [','] l4
  let (lb, l5) ← pNatField "lb" l4b
  let l6 ← pTok ['\x7d'] l5
  some (⟨a, b, cls, dir, lb⟩, l6)

/-- The remaining elements of a segment array, after the first one. -/
def pSegsTail (fuel : ℕ) (l : List Char) :
    Option (List CodecSeg × List Char) :=
  match fuel with
  | 0 => none
  | fuel + 1 =>
      match skipWs l with
      | ']' :: r => some ([], r)
      | ',' :: r => do
          let (s, r1) ← pSegObj r
          let (ss, r2) ← pSegsTail fuel r1
          some (s :: ss, r2)
      | _ => none

/-- What follows the opening bracket of a segment array: either the
immediate closing bracket or the first element and the remaining ones. -/
def pSegArrCont (r : List Char) : Option (List CodecSeg × List Char) :=
  match skipWs r with
  | ']' :: r' => some ([], r')
  | _ => do
      let (s, r1) ← pSegObj r
      let (ss, r2) ← pSegsTail r1.length r1
      some (s :: ss, r2)

/-- A segment array. -/
def pSegArr (l : List Char) : Option (List CodecSeg × List Char) :=
  match skipWs l with
  | '[' :: r => pSegArrCont r
  | _ => none

/-- The four leading string fields of a codec object
(`{"v":…,"layout":…,"dash":…,"color":…,` with the trailing comma). -/
def pCodecHead (l : List Char) :
    Option ((List Char × List Char × List Char × List Char) × List Char) := do
  let l0 ← pTok ['\x7b'] l
  let (v, l1) ← pStrField "v" l0
  let l1b ← pTok [','] l1
  let (layout, l2) ← pStrField "layout" l1b
  let l2b ← pTok [','] l2
  let (dash, l3) ← pStrField "dash" l2b
  let l3b ← pTok [','] l3
  let (color, l4) ← pStrField "color" l3b
  let l4b ← pTok [','] l4
  some ((v, layout, dash, color), l4b)

/-- A whole codec object, keys in canonical order. -/
def pCodec (l : List Char) : Option (Codec × List Char) := do
  let (vldc, l4b) ← pCodecHead l
  let (len, l5) ← pNatField "len" l4b
  let l5b ← pTok [','] l5
  let (hash, l6) ← pStrField "hash" l5b
  let l6b ← pTok [','] l6
  let l6c ← pKey "seg" l6b
  let (seg, l7) ← pSegArr l6c
  let l8 ← pTok ['\x7d'] l7
  some (⟨⟨vldc.1⟩, ⟨vldc.2.1⟩, ⟨vldc.2.2.1⟩, ⟨vldc.2.2.2⟩, len, ⟨hash⟩, seg⟩,
    l8)

/-- Modelled from the spec: the deserializer of the structured text form
(`JSON.parse` of the canonical rendering; the repository has none). -/
def parseCodecText (s : String) : Option Codec :=
  match pCodec s.data with
  | some (r, rest) => if skipWs rest = [] then some r else none
  | none => none

/-- The metadata payload of an embedded document: everything after the
fixed head up to the next `<`. -/
def embeddedPayload (s : String) : List Char :=
  (s.data.drop svgHeadChars.length).takeWhile (fun c => !(c == '<'))

/-- Modelled from the spec: the deserializer of the embedded form —
strip the fixed skeleton, unescape the metadata payload, parse the JSON. -/
def parseCodecEmbedded (s : String) : Option Codec :=
  if List.isPrefixOf svgHeadChars s.data then
    if (s.data.drop svgHeadChars.length).drop (embeddedPayload s).length
        = svgTailChars then
      match pCodec (unescapeXml (embeddedPayload s)) with
      | some (r, rest') => if skipWs rest' = [] then some r else none
      | none => none
    else none
  else none

-- ## Theorems

/-- C3: `classifyPair` is a pure total function of exactly two characters
agreeing with the spec's 5-rule priority order (NumericOrUnderscore first,
then UpperUpper, LowerLower, UpperLower, and LowerUpper for the remaining
case), and it satisfies the six listed examples. -/
theorem classifyPair_spec :
    (∀ a b : Char, classifyPair a b = classifySpec a b) ∧
    classifyPair 'A' 'A' = .UU ∧ classifyPair 'a' 'a' = .LL ∧
    classifyPair 'A' 'a' = .UL ∧ classifyPair 'a' 'A' = .LU ∧
    classifyPair '1' 'A' = .NUM ∧ classifyPair '_' 'b' = .NUM := by
  refine ⟨fun a b => ?_, by decide, by decide, by decide, by decide,
    by decide, by decide⟩
  simp only [classifyPair, classifySpec, isNumOrUnd, isUpper, isLower,
    Bool.or_eq_true, Bool.and_eq_true, decide_eq_true_eq]

/-- C7: `lengthBin` maps a length to bin 0 below 40, bin 1 in [40, 80),
bin 2 in [80, 120) and bin 3 from 120 on; in particular
39.9/40/79.9/80/119.9/120 map to 0/1/1/2/2/3. -/
theorem lengthBin_spec :
    (∀ len : ℝ,
      (len < 40 → lengthBin len = 0) ∧
      (40 ≤ len → len < 80 → lengthBin len = 1) ∧
      (80 ≤ len → len < 120 → lengthBin len = 2) ∧
      (120 ≤ len → lengthBin len = 3)) ∧
    lengthBin 39.9 = 0 ∧ lengthBin 40 = 1 ∧ lengthBin 79.9 = 1 ∧
    lengthBin 80 = 2 ∧ lengthBin 119.9 = 2 ∧ lengthBin 120 = 3 := by
  have key : ∀ len : ℝ,
      (len < 40 → lengthBin len = 0) ∧
      (40 ≤ len → len < 80 → lengthBin len = 1) ∧
      (80 ≤ len → len < 120 → lengthBin len = 2) ∧
      (120 ≤ len → lengthBin len = 3) := by
    intro len
    refine ⟨fun h => ?_, fun h1 h2 => ?_, fun h1 h2 => ?_, fun h => ?_⟩ <;>
      (simp only [lengthBin]; split_ifs <;> first | rfl | linarith)
  refine ⟨key, (key 39.9).1 (by norm_num),
    (key 40).2.1 (by norm_num) (by norm_num),
    (key 79.9).2.1 (by norm_num) (by norm_num),
    (key 80).2.2.1 (by norm_num) (by norm_num),
    (key 119.9).2.2.1 (by norm_num) (by norm_num),
    (key 120).2.2.2 (by norm_num)⟩

/-- C7 witness: the theorem instantiated at 39.9 and 40. -/
theorem lengthBin_spec_witness :
    (39.9 : ℝ) < 40 ∧ lengthBin 39.9 = 0 ∧
    (40 : ℝ) ≤ 40 ∧ (40 : ℝ) < 80 ∧ lengthBin 40 = 1 :=
  ⟨by norm_num, (lengthBin_spec.1 39.9).1 (by norm_num), by norm_num,
   by norm_num, (lengthBin_spec.1 40).2.1 (by norm_num) (by norm_num)⟩

/-- C10: for every pair class and every draw in the closed interval
[0, 1], the selection index `floor(draw * choiceCount) % choiceCount` is
nonnegative and strictly below the choice count, and `dashForPair` always
returns a member of the class's dash-pattern list. -/
theorem dashForPair_safe :
    ∀ (cls : PairClass) (draw : ℚ), 0 ≤ draw → draw ≤ 1 →
      0 ≤ dashIdx cls draw ∧
      dashIdx cls draw < (DASH_ALPHABET cls).length ∧
      ∀ a b : Char, dashForPair a b draw ∈ DASH_ALPHABET (classifyPair a b) := by
  have hlen : ∀ cls : PairClass, 0 < ((DASH_ALPHABET cls).length : ℤ) := by
    intro cls; cases cls <;> decide
  have hrange : ∀ (cls : PairClass) (draw : ℚ),
      0 ≤ dashIdx cls draw ∧ dashIdx cls draw < (DASH_ALPHABET cls).length := by
    intro cls draw
    exact ⟨Int.emod_nonneg _ (ne_of_gt (hlen cls)),
      Int.emod_lt_of_pos _ (hlen cls)⟩
  intro cls draw _ _
  refine ⟨(hrange cls draw).1, (hrange cls draw).2, fun a b => ?_⟩
  set k := classifyPair a b with hk
  have h1 := (hrange k draw).1
  have h2 := (hrange k draw).2
  have hidx : (dashIdx k draw).toNat < (DASH_ALPHABET k).length := by
    omega
  unfold dashForPair
  rw [← hk, List.getD_eq_getElem _ _ hidx]
  exact List.getElem_mem _

/-- C10 witness: the theorem instantiated with draw = 1 (the right
endpoint of the closed interval) on class UL. -/
theorem dashForPair_safe_witness :
    (0 : ℚ) ≤ 1 ∧ (1 : ℚ) ≤ 1 ∧
    dashForPair 'A' 'a' 1 ∈ DASH_ALPHABET (classifyPair 'A' 'a') :=
  ⟨by norm_num, by norm_num,
   (dashForPair_safe .UL 1 (by norm_num) (by norm_num)).2.2 'A' 'a'⟩

theorem hash32_lt (s : String) : hash32 s < 2 ^ 32 := by
  have key : ∀ (l : List Char) (h : ℕ), h < 2 ^ 32 →
      l.foldl hash32Step h < 2 ^ 32 := by
    intro l
    induction l with
    | nil => intro h hh; simpa using hh
    | cons c t ih =>
        intro h _
        exact ih _ (Nat.mod_lt _ (by norm_num))
  exact key _ _ (by norm_num)

theorem xorshiftStep_lt {x : ℕ} (hx : x < 2 ^ 32) :
    xorshiftStep x < 2 ^ 32 := by
  unfold xorshiftStep
  have h1 : x ^^^ (x * 2 ^ 13 % 2 ^ 32) < 2 ^ 32 :=
    Nat.xor_lt_two_pow hx (Nat.mod_lt _ (by norm_num))
  have h2 : (x ^^^ (x * 2 ^ 13 % 2 ^ 32)) ^^^
      ((x ^^^ (x * 2 ^ 13 % 2 ^ 32)) / 2 ^ 17) < 2 ^ 32 :=
    Nat.xor_lt_two_pow h1 (Nat.lt_of_le_of_lt (Nat.div_le_self _ _) h1)
  exact Nat.xor_lt_two_pow h2 (Nat.mod_lt _ (by norm_num))

theorem rngState_lt (seed : String) (k : ℕ) : rngState seed k < 2 ^ 32 := by
  induction k with
  | zero =>
      unfold rngState
      split
      · norm_num
      · exact hash32_lt seed
  | succ k ih => exact xorshiftStep_lt ih

/-- C5 (amended): `makeRng` hashes the seed with 32-bit FNV-1a,
substitutes 1 for a zero hash, iterates the 13/17/5 xorshift on 32-bit
words and divides by the maximum 32-bit unsigned value; every output lies
in the closed interval [0, 1] (the right endpoint is attained: dividing by
`0xffffffff` yields exactly 1 whenever the state reaches `0xffffffff`). -/
theorem rngOut_range :
    ∀ (seed : String) (k : ℕ),
      rngState seed 0 = (if hash32 seed = 0 then 1 else hash32 seed) ∧
      rngState seed (k + 1) = xorshiftStep (rngState seed k) ∧
      rngOut seed k = (rngState seed (k + 1) : ℚ) / 0xffffffff ∧
      0 ≤ rngOut seed k ∧ rngOut seed k ≤ 1 := by
  intro seed k
  refine ⟨rfl, rfl, rfl, ?_, ?_⟩
  · unfold rngOut
    positivity
  · unfold rngOut
    rw [div_le_one (by norm_num)]
    have h := rngState_lt seed (k + 1)
    have h' : rngState seed (k + 1) ≤ 0xffffffff := by omega
    exact_mod_cast h'

/-- C5 counterexample: for the seed "sybqhr" the second generator output
equals exactly 1, so it does not lie in the half-open interval [0, 1). -/
theorem rngOut_reaches_one : rngOut "sybqhr" 1 = 1 ∧ ¬ rngOut "sybqhr" 1 < 1 := by
  have h : rngState "sybqhr" 2 = 4294967295 := by decide
  have h1 : rngOut "sybqhr" 1 = 1 := by
    unfold rngOut
    rw [h]
    norm_num
  exact ⟨h1, by rw [h1]; exact lt_irrefl 1⟩

theorem atan2_zero_of_pos {x : ℝ} (hx : 0 < x) : atan2 0 x = 0 := by
  unfold atan2
  rw [if_pos hx, zero_div, Real.arctan_zero]

theorem atan2_zero_of_neg {y : ℝ} (hy : y < 0) : atan2 y 0 = -(Real.pi / 2) := by
  unfold atan2
  rw [if_neg (lt_irrefl 0), if_neg (lt_irrefl 0), if_neg (by linarith), if_pos hy]

theorem direction8_east {dx : ℝ} (hx : 0 < dx) : direction8 dx 0 = 0 := by
  unfold direction8
  rw [atan2_zero_of_pos hx, zero_div, round_zero]
  decide

theorem direction8_screen_up {dy : ℝ} (hy : dy < 0) : direction8 0 dy = 6 := by
  unfold direction8
  rw [atan2_zero_of_neg hy]
  have hpi := Real.pi_ne_zero
  have h2 : -(Real.pi / 2) / (Real.pi / 4) = -2 := by
    field_simp
    ring
  rw [h2, show (-2 : ℝ) = ((-2 : ℤ) : ℝ) by norm_num, round_intCast]
  decide

/-- C4 (amended): the direction feature is
`round(atan2(dy, dx) / (π/4))` taken modulo 8, always in [0, 8); a purely
horizontal rightward segment (dx > 0, dy = 0) yields direction 0, and a
purely upward segment in screen coordinates (dx = 0, dy < 0) yields
direction 6 — not 2; direction 2 corresponds to dy > 0 (screen-down). -/
theorem direction8_spec :
    ∀ dx dy : ℝ,
      direction8 dx dy = (round (atan2 dy dx / (Real.pi / 4)) + 8) % 8 ∧
      (0 < dx → direction8 dx 0 = 0) ∧
      (dy < 0 → direction8 0 dy = 6) ∧
      0 ≤ direction8 dx dy ∧ direction8 dx dy < 8 := by
  intro dx dy
  refine ⟨rfl, fun h => direction8_east h, fun h => direction8_screen_up h,
    Int.emod_nonneg _ (by norm_num), Int.emod_lt_of_pos _ (by norm_num)⟩

/-- C4 witness: the theorem instantiated at (1, 0) and (0, -1). -/
theorem direction8_spec_witness :
    (0 : ℝ) < 1 ∧ direction8 1 0 = 0 ∧
    (-1 : ℝ) < 0 ∧ direction8 0 (-1) = 6 :=
  ⟨by norm_num, (direction8_spec 1 0).2.1 (by norm_num), by norm_num,
   (direction8_spec 0 (-1)).2.2.1 (by norm_num)⟩

/-- C4 counterexample: the claim says a purely upward segment
(dx = 0, dy < 0 in screen coordinates) yields direction 2, but the code
yields direction 6 there. -/
theorem direction8_up_ne_two :
    direction8 0 (-1) = 6 ∧ ¬ direction8 0 (-1) = 2 := by
  have h := direction8_screen_up (show (-1 : ℝ) < 0 by norm_num)
  exact ⟨h, by rw [h]; decide⟩

theorem hexDigitCh_mem (d : ℕ) : hexDigitCh d ∈ hexLowerChars := by
  rcases d with _|_|_|_|_|_|_|_|_|_|_|_|_|_|_|d <;>
    first
      | decide
      | exact (by decide : 'f' ∈ hexLowerChars)

theorem natToHexAux_mem :
    ∀ (fuel n : ℕ), ∀ c ∈ natToHexAux fuel n, c ∈ hexLowerChars := by
  intro fuel
  induction fuel with
  | zero => intro n c hc; simp [natToHexAux] at hc
  | succ fuel ih =>
      intro n c hc
      rw [natToHexAux] at hc
      split at hc
      · rw [List.mem_singleton] at hc
        exact hc ▸ hexDigitCh_mem n
      · rcases List.mem_append.mp hc with hmem | hmem
        · exact ih (n / 16) c hmem
        · rw [List.mem_singleton] at hmem
          exact hmem ▸ hexDigitCh_mem (n % 16)

theorem natToHex_mem (n : ℕ) : ∀ c ∈ natToHex n, c ∈ hexLowerChars :=
  natToHexAux_mem (n + 1) n

theorem natToHexAux_length_le :
    ∀ (fuel k n : ℕ), 0 < k → n < 16 ^ k →
      (natToHexAux fuel n).length ≤ k := by
  intro fuel
  induction fuel with
  | zero =>
      intro k n hk _
      simp [natToHexAux]
  | succ fuel ih =>
      intro k n hk hn
      rw [natToHexAux]
      split
      · simp only [List.length_singleton]
        omega
      · rename_i h
        have hk2 : 2 ≤ k := by
          by_contra hlt
          have hk1 : k = 1 := by omega
          subst hk1
          simp only [pow_one] at hn
          omega
        have hdiv : n / 16 < 16 ^ (k - 1) := by
          rw [Nat.div_lt_iff_lt_mul (by norm_num)]
          calc n < 16 ^ k := hn
            _ = 16 ^ (k - 1) * 16 := by
                rw [← pow_succ]
                congr 1
                omega
        have hlen := ih (k - 1) (n / 16) (by omega) hdiv
        simp only [List.length_append, List.length_singleton]
        omega

theorem toHex8_length {n : ℕ} (hn : n < 2 ^ 32) : (toHex8 n).length = 8 := by
  have h16 : (16 : ℕ) ^ 8 = 4294967296 := by norm_num
  have h2 : (2 : ℕ) ^ 32 = 4294967296 := by norm_num
  have h8 : (natToHex n).length ≤ 8 :=
    natToHexAux_length_le (n + 1) 8 n (by norm_num) (by omega)
  show (List.replicate (8 - (natToHex n).length) '0' ++ natToHex n).length = 8
  rw [List.length_append, List.length_replicate]
  omega

theorem toHex8_mem (n : ℕ) : ∀ c ∈ (toHex8 n).data, c ∈ hexLowerChars := by
  intro c hc
  have hc' : c ∈ List.replicate (8 - (natToHex n).length) '0' ++ natToHex n := hc
  rcases List.mem_append.mp hc' with h | h
  · rw [List.eq_of_mem_replicate h]
    decide
  · exact natToHex_mem n c h

/-- C2: `buildCodec` sets the hash field to the 32-bit FNV-1a hash of
`"<layoutId>|<lowercased name>"` rendered as exactly 8 lowercase
hexadecimal digits with zero padding (for "Ab_3" on qwerty it is the hex
rendering of `hash32 "qwerty|ab_3"`), and sets the len field to the
character count of the raw input name, not the resolved-point count
(witnessed by "a@b", which has 3 characters but only 2 resolved points).
The hash equation is stated for names made of ASCII characters, the
domain on which the embedding's lowering coincides with the program's
Unicode `toLowerCase`; the digit-count, digit-set and length facts do
not involve the case mapping and hold for every name. -/
theorem buildCodec_hash_len :
    ∀ (name layout : String) (dashABC : Bool) (segs : List CodecSeg),
      ((∀ c ∈ name.data, c.toNat < 128) →
        (buildCodec name layout dashABC segs).hash
          = toHex8 (hash32 (layout ++ "|" ++ lowerStr name))) ∧
      (buildCodec name layout dashABC segs).len = name.length ∧
      ((buildCodec name layout dashABC segs).hash).length = 8 ∧
      (∀ c ∈ ((buildCodec name layout dashABC segs).hash).data,
        c ∈ hexLowerChars) ∧
      (buildCodec "Ab_3" "qwerty" dashABC segs).hash
        = toHex8 (hash32 "qwerty|ab_3") ∧
      (resolvePoints "a@b").length = 2 ∧
      (buildCodec "a@b" layout dashABC segs).len = 3 := by
  intro name layout dashABC segs
  exact ⟨fun _ => rfl, rfl, toHex8_length (hash32_lt _), toHex8_mem _,
    congrArg (fun s => toHex8 (hash32 s))
      (show "qwerty" ++ "|" ++ lowerStr "Ab_3" = "qwerty|ab_3" by decide),
    by decide, rfl⟩

/-- C2 witness: "Ab_3" is an ASCII name, its hash equation holds there,
and the hash digits of its codec are lowercase hex. -/
theorem buildCodec_hash_len_witness :
    (∀ c ∈ ("Ab_3" : String).data, c.toNat < 128) ∧
    (buildCodec "Ab_3" "qwerty" true []).hash
      = toHex8 (hash32 ("qwerty" ++ "|" ++ lowerStr "Ab_3")) ∧
    'd' ∈ ((buildCodec "Ab_3" "qwerty" true []).hash).data ∧
    'd' ∈ hexLowerChars :=
  ⟨by decide,
    (buildCodec_hash_len "Ab_3" "qwerty" true []).1 (by decide),
    by decide,
    (buildCodec_hash_len "Ab_3" "qwerty" true []).2.2.2.1 'd' (by decide)⟩

theorem segments_feat_curve_indep (name : String) (dm cm₁ cm₂ : Bool) :
    (segments name dm cm₁).map RenderSeg.feat
      = (segments name dm cm₂).map RenderSeg.feat := by
  unfold segments
  by_cases hname : name = ""
  · rw [if_pos hname, if_pos hname]
  · rw [if_neg hname, if_neg hname]
    by_cases hlen : (resolvePoints name).length < 2
    · rw [if_pos hlen, if_pos hlen]
    · rw [if_neg hlen, if_neg hlen, List.map_map, List.map_map]
      apply List.map_congr_left
      intro i _
      simp only [Function.comp_apply]
      cases cm₁ <;> cases cm₂ <;> rfl

/-- C1: the codec produced by the pipeline is identical whether the curve
mode is straight or Catmull-Rom (and there is no color setting that could
influence it): both the per-segment feature list and the whole record
depend only on the name and the dash mode. -/
theorem codec_styling_independent :
    ∀ (name : String) (dm cm₁ cm₂ : Bool),
      pipelineCodec name dm cm₁ = pipelineCodec name dm cm₂ ∧
      (segments name dm cm₁).map RenderSeg.feat
        = (segments name dm cm₂).map RenderSeg.feat := by
  intro name dm cm₁ cm₂
  have hfeat := segments_feat_curve_indep name dm cm₁ cm₂
  refine ⟨?_, hfeat⟩
  have hlen : (segments name dm cm₁).length = (segments name dm cm₂).length := by
    have h := congrArg List.length hfeat
    simpa using h
  simp only [pipelineCodec]
  rw [hfeat, hlen]

/-- C6: with k resolved points, k ≥ 2 gives exactly k − 1 segments, and
k < 2 gives an empty segment list and no codec (and no error). -/
theorem segment_count_invariant :
    ∀ (name : String) (dm cm : Bool),
      (2 ≤ (resolvePoints name).length →
        (segments name dm cm).length = (resolvePoints name).length - 1) ∧
      ((resolvePoints name).length < 2 →
        segments name dm cm = [] ∧ pipelineCodec name dm cm = none) := by
  intro name dm cm
  constructor
  · intro h2
    have hname : ¬ name = "" := by
      intro h
      subst h
      have : (resolvePoints "").length = 0 := by decide
      omega
    unfold segments
    rw [if_neg hname]
    simp only [if_neg (show ¬ (resolvePoints name).length < 2 by omega)]
    rw [List.length_map, List.length_range]
  · intro h2
    have hseg : segments name dm cm = [] := by
      unfold segments
      by_cases hname : name = ""
      · rw [if_pos hname]
      · rw [if_neg hname]
        simp only [if_pos h2]
    refine ⟨hseg, ?_⟩
    simp only [pipelineCodec, hseg]
    simp

theorem catmullRom_uniform_at_1X :
    catmullRomCubicForSegment (46, 42) (46, 42) (181, 222) (181, 222) 0
      = ⟨137 / 2, 72, 407 / 2, 252⟩ := by
  simp only [catmullRomCubicForSegment, Real.rpow_zero, CubicControls.mk.injEq]
  norm_num

theorem catmullRom_centripetal_at_1X :
    (catmullRomCubicForSegment (46, 42) (46, 42) (181, 222) (181, 222)
      (1 / 2)).c1x = 46 + 135 / 48 := by
  have h225 : (225 : ℝ) ^ ((1 : ℝ) / 2) = 15 := by
    rw [show (225 : ℝ) = 15 ^ 2 by norm_num, ← Real.sqrt_eq_rpow,
      Real.sqrt_sq (by norm_num)]
  have h0 : (0 : ℝ) ^ ((1 : ℝ) / 2) = 0 := Real.zero_rpow (by norm_num)
  have hh0 : hypot 0 0 = 0 := by simp [hypot]
  have hh : hypot 135 180 = 225 := by
    rw [hypot, show (135 : ℝ) ^ 2 + 180 ^ 2 = 225 ^ 2 by norm_num]
    exact Real.sqrt_sq (by norm_num)
  simp only [catmullRomCubicForSegment]
  norm_num [hh0, hh, h225, h0]

/-- C8 (code bug): the claim — and the function's own doc comment
("α=0.5 centripetal") — call for a centripetal parametrization with a
nonzero exponent, but the call site passes `alpha = 0`, a uniform
parametrization in which every distance weight `pow(d, 0)` is 1.  At the
failing input "1X" (one segment of length 225, ends clamped), the
pipeline's Catmull-Rom geometry carries the α = 0 control point
x = 137/2, while the centripetal α = 1/2 parametrization yields the
different control point x = 46 + 135/48. -/
theorem catmullRom_exponent_bug :
    ((segments "1X" true true).head?.map RenderSeg.geom)
      = some (.cubic (46, 42) (137 / 2, 72) (407 / 2, 252) (181, 222)) ∧
    (catmullRomCubicForSegment (46, 42) (46, 42) (181, 222) (181, 222)
      (1 / 2)).c1x = 46 + 135 / 48 ∧
    (46 + 135 / 48 : ℝ) ≠ 137 / 2 := by
  refine ⟨?_, catmullRom_centripetal_at_1X, by norm_num⟩
  have hSX : SHIFT_X = 0 := by
    norm_num [SHIFT_X, minX, qwertyKeys, List.min?, List.foldl, min_def,
      KEY_SPACING]
  have hSY : SHIFT_Y = 60 := by
    norm_num [SHIFT_Y, minY, qwertyKeys, List.min?, List.foldl, min_def,
      KEY_SPACING]
  have h1 : getKeyCenter '1' = some ⟨46, 42, '1'⟩ := by
    simp +decide [getKeyCenter, layoutLookup, qwertyKeys, List.lookup]
    rw [hSX, hSY]
    norm_num [KEY_SPACING, KEY_W, KEY_H, PAD_X, PAD_Y, Pt.mk.injEq]
  have hX : getKeyCenter 'X' = some ⟨181, 222, 'X'⟩ := by
    simp +decide [getKeyCenter, layoutLookup, qwertyKeys, List.lookup,
      show 'X'.toUpper = 'X' from rfl]
    rw [hSX, hSY]
    norm_num [KEY_SPACING, KEY_W, KEY_H, PAD_X, PAD_Y, Pt.mk.injEq]
  have hpts : resolvePoints "1X" = [⟨46, 42, '1'⟩, ⟨181, 222, 'X'⟩] := by
    simp [resolvePoints, show ("1X" : String).data = ['1', 'X'] from rfl,
      List.filterMap_cons, h1, hX]
  unfold segments
  rw [if_neg (show ¬ ("1X" : String) = "" by decide), hpts]
  rw [if_neg (show ¬ ([⟨46, 42, '1'⟩, ⟨181, 222, 'X'⟩] : List Pt).length < 2
    by decide)]
  rw [show List.range (([⟨46, 42, '1'⟩, ⟨181, 222, 'X'⟩] : List Pt).length - 1)
    = [0] from by decide]
  simp only [List.map_cons, List.map_nil, List.head?_cons, Option.map_some']
  congr 1
  show (buildSeg [⟨46, 42, '1'⟩, ⟨181, 222, 'X'⟩] "1X" true true 0).geom
    = .cubic (46, 42) (137 / 2, 72) (407 / 2, 252) (181, 222)
  simp only [buildSeg, List.getD, if_pos rfl]
  norm_num
  simp [catmullRom_uniform_at_1X]

/-- C6 witness: the theorem instantiated at "Ab" (2 resolved points) and
"a@" (1 resolved point: '@' is not in the layout). -/
theorem segment_count_invariant_witness :
    2 ≤ (resolvePoints "Ab").length ∧
    (segments "Ab" true true).length = (resolvePoints "Ab").length - 1 ∧
    (resolvePoints "a@").length < 2 ∧
    segments "a@" true false = [] ∧
    pipelineCodec "a@" true false = none :=
  ⟨by decide, (segment_count_invariant "Ab" true true).1 (by decide),
   by decide, ((segment_count_invariant "a@" true false).2 (by decide)).1,
   ((segment_count_invariant "a@" true false).2 (by decide)).2⟩

-- ### Round-trip lemmas (C9)

theorem skipWs_ws_append :
    ∀ (w : List Char), WsOk w → ∀ l, skipWs (w ++ l) = skipWs l := by
  intro w
  induction w with
  | nil => intro _ l; rfl
  | cons c t ih =>
      intro hw l
      have hc : isWsCh c = true := hw c (by simp)
      have ht : WsOk t := fun x hx => hw x (by simp [hx])
      simp only [List.cons_append, skipWs, List.dropWhile_cons, hc, if_true]
      exact ih ht l

theorem skipWs_not_ws {c : Char} (hc : isWsCh c = false) (l : List Char) :
    skipWs (c :: l) = c :: l := by
  simp [skipWs, List.dropWhile_cons, hc]

theorem expectTok_append (t r : List Char) : expectTok t (t ++ r) = some r := by
  unfold expectTok
  rw [if_pos, List.drop_left]
  exact List.isPrefixOf_iff_prefix.mpr (List.prefix_append t r)

theorem pTok_spec {w : List Char} (hw : WsOk w) {c : Char}
    (hc : isWsCh c = false) (t r : List Char) :
    pTok (c :: t) (w ++ ((c :: t) ++ r)) = some r := by
  unfold pTok
  rw [skipWs_ws_append w hw, show (c :: t) ++ r = c :: (t ++ r) from rfl,
    skipWs_not_ws hc, show c :: (t ++ r) = (c :: t) ++ r from rfl,
    expectTok_append]

theorem pStringBody_quote (r : List Char) :
    pStringBody ('"' :: r) = some ([], r) := by
  rw [pStringBody.eq_def]
  simp

theorem pStringBody_escq (r : List Char) :
    pStringBody ('\\' :: '"' :: r)
      = (pStringBody r).map fun p => ('"' :: p.1, p.2) := by
  rw [pStringBody.eq_def]
  simp

theorem pStringBody_escb (r : List Char) :
    pStringBody ('\\' :: '\\' :: r)
      = (pStringBody r).map fun p => ('\\' :: p.1, p.2) := by
  rw [pStringBody.eq_def]
  simp

theorem pStringBody_other {c : Char} (h1 : ¬ c = '"') (h2 : ¬ c = '\\')
    (r : List Char) :
    pStringBody (c :: r) = (pStringBody r).map fun p => (c :: p.1, p.2) := by
  rw [pStringBody.eq_def]
  simp [h1, h2]

theorem pStringBody_spec :
    ∀ (s r : List Char),
      pStringBody ((s.map jsonEscChar).flatten ++ '"' :: r) = some (s, r) := by
  intro s
  induction s with
  | nil =>
      intro r
      simp only [List.map_nil, List.flatten_nil, List.nil_append]
      exact pStringBody_quote r
  | cons c t ih =>
      intro r
      by_cases h1 : c = '"'
      · subst h1
        rw [List.map_cons, List.flatten_cons,
          show jsonEscChar '"' = ['\\', '"'] from by decide]
        simp only [List.cons_append, List.nil_append, List.append_assoc]
        rw [pStringBody_escq, ih r]
        rfl
      · by_cases h2 : c = '\\'
        · subst h2
          rw [List.map_cons, List.flatten_cons,
            show jsonEscChar '\\' = ['\\', '\\'] from by decide]
          simp only [List.cons_append, List.nil_append, List.append_assoc]
          rw [pStringBody_escb, ih r]
          rfl
        · rw [List.map_cons, List.flatten_cons,
            show jsonEscChar c = [c] from by simp [jsonEscChar, h1, h2]]
          simp only [List.cons_append, List.nil_append, List.append_assoc]
          rw [pStringBody_other h1 h2, ih r]
          rfl

theorem pString_spec {w : List Char} (hw : WsOk w) (s r : List Char) :
    pString (w ++ (jsonString s ++ r)) = some (s, r) := by
  unfold pString jsonString
  rw [skipWs_ws_append w hw, List.cons_append,
    skipWs_not_ws (show isWsCh '"' = false by decide)]
  simp only [List.append_assoc]
  exact pStringBody_spec s r

theorem digitCh_not_ws (d : ℕ) : isWsCh (digitCh d) = false := by
  rcases d with _|_|_|_|_|_|_|_|_|d <;>
    first
      | decide
      | exact (by decide : isWsCh '9' = false)

theorem digitCh_is_digit (d : ℕ) : isDigitCh (digitCh d) = true := by
  rcases d with _|_|_|_|_|_|_|_|_|d <;>
    first
      | decide
      | exact (by decide : isDigitCh '9' = true)

theorem digitCh_val {d : ℕ} (hd : d < 10) : (digitCh d).toNat - 48 = d := by
  interval_cases d <;> decide

theorem natCharsAux_mem_digit :
    ∀ (fuel n : ℕ), ∀ c ∈ natCharsAux fuel n, isDigitCh c = true := by
  intro fuel
  induction fuel with
  | zero => intro n c hc; simp [natCharsAux] at hc
  | succ fuel ih =>
      intro n c hc
      rw [natCharsAux] at hc
      split at hc
      · rw [List.mem_singleton] at hc
        exact hc ▸ digitCh_is_digit n
      · rcases List.mem_append.mp hc with h | h
        · exact ih (n / 10) c h
        · rw [List.mem_singleton] at h
          exact h ▸ digitCh_is_digit (n % 10)

theorem natCharsAux_ne_nil (fuel n : ℕ) : natCharsAux (fuel + 1) n ≠ [] := by
  rw [natCharsAux]
  split
  · simp
  · simp

theorem natCharsAux_foldl :
    ∀ (fuel n acc : ℕ), n < fuel →
      (natCharsAux fuel n).foldl (fun a c => a * 10 + (c.toNat - 48)) acc
        = acc * 10 ^ (natCharsAux fuel n).length + n := by
  intro fuel
  induction fuel with
  | zero => intro n acc h; omega
  | succ fuel ih =>
      intro n acc hn
      rw [natCharsAux]
      split
      · rename_i h10
        simp only [List.foldl_cons, List.foldl_nil, List.length_singleton,
          pow_one]
        rw [digitCh_val h10]
      · rename_i h10
        have h1 : n / 10 < n := Nat.div_lt_self (by omega) (by norm_num)
        have hdiv : n / 10 < fuel := by omega
        rw [List.foldl_append]
        simp only [List.foldl_cons, List.foldl_nil, List.length_append,
          List.length_singleton]
        rw [ih (n / 10) acc hdiv, digitCh_val (Nat.mod_lt n (by norm_num))]
        have hmod : 10 * (n / 10) + n % 10 = n := Nat.div_add_mod n 10
        calc (acc * 10 ^ (natCharsAux fuel (n / 10)).length + n / 10) * 10
              + n % 10
            = acc * (10 ^ (natCharsAux fuel (n / 10)).length * 10)
              + (10 * (n / 10) + n % 10) := by ring
          _ = acc * 10 ^ ((natCharsAux fuel (n / 10)).length + 1) + n := by
              rw [hmod, pow_succ]

theorem takeWhile_append_not :
    ∀ (a : List Char) (p : Char → Bool) (r : List Char),
      (∀ c ∈ a, p c = true) → (∀ c, r.head? = some c → p c = false) →
      (a ++ r).takeWhile p = a := by
  intro a p
  induction a with
  | nil =>
      intro r _ hr
      cases r with
      | nil => rfl
      | cons c t => simp [List.takeWhile_cons, hr c rfl]
  | cons c t ih =>
      intro r ha hr
      simp only [List.cons_append, List.takeWhile_cons, ha c (by simp),
        if_true]
      rw [ih r (fun x hx => ha x (by simp [hx])) hr]

theorem pNat_spec {r : List Char} (hr : NotDigitHead r) (n : ℕ) :
    pNat (natChars n ++ r) = some (n, r) := by
  have hd : ∀ c ∈ natChars n, isDigitCh c = true :=
    fun c hc => natCharsAux_mem_digit (n + 1) n c hc
  have htake : (natChars n ++ r).takeWhile isDigitCh = natChars n :=
    takeWhile_append_not (natChars n) isDigitCh r hd hr
  unfold pNat
  rw [htake, if_neg (by simp [List.isEmpty_iff, natChars, natCharsAux_ne_nil]),
    List.drop_left]
  have hval := natCharsAux_foldl (n + 1) n 0 (by omega)
  unfold natChars
  rw [hval]
  simp

theorem pInt_spec {r : List Char} (hr : NotDigitHead r) (i : ℤ) :
    pInt (intChars i ++ r) = some (i, r) := by
  by_cases hi : i < 0
  · unfold intChars
    rw [if_pos hi]
    unfold pInt
    simp only [List.cons_append, List.head?_cons, List.tail_cons, if_pos rfl]
    rw [pNat_spec hr i.natAbs]
    simp only [Option.map_some']
    rw [Int.ofNat_natAbs_of_nonpos (by omega)]
    simp
  · unfold intChars
    rw [if_neg hi]
    obtain ⟨c, t, hct⟩ := List.exists_cons_of_ne_nil
      (natCharsAux_ne_nil i.toNat i.toNat)
    have hcd : isDigitCh c = true := by
      have := natCharsAux_mem_digit (i.toNat + 1) i.toNat c (by rw [hct]; simp)
      exact this
    have hcne : ¬ c = '-' := by
      intro h
      rw [h] at hcd
      exact absurd hcd (by decide)
    unfold pInt
    rw [show natChars i.toNat = c :: t from hct]
    simp only [List.cons_append, List.head?_cons]
    rw [if_neg (by simp [hcne])]
    rw [show c :: (t ++ r) = natChars i.toNat ++ r from by
      rw [show natChars i.toNat = c :: t from hct, List.cons_append]]
    rw [pNat_spec hr i.toNat]
    simp only [Option.map_some']
    rw [Int.toNat_of_nonneg (by omega)]

theorem natCharsAux_mem_not_ws :
    ∀ (fuel n : ℕ), ∀ c ∈ natCharsAux fuel n, isWsCh c = false := by
  intro fuel
  induction fuel with
  | zero => intro n c hc; simp [natCharsAux] at hc
  | succ fuel ih =>
      intro n c hc
      rw [natCharsAux] at hc
      split at hc
      · rw [List.mem_singleton] at hc
        exact hc ▸ digitCh_not_ws n
      · rcases List.mem_append.mp hc with h | h
        · exact ih (n / 10) c h
        · rw [List.mem_singleton] at h
          exact h ▸ digitCh_not_ws (n % 10)

theorem skipWs_natChars (n : ℕ) (r : List Char) :
    skipWs (natChars n ++ r) = natChars n ++ r := by
  obtain ⟨c, t, hct⟩ := List.exists_cons_of_ne_nil (natCharsAux_ne_nil n n)
  have hcw : isWsCh c = false :=
    natCharsAux_mem_not_ws (n + 1) n c (by rw [show natCharsAux (n + 1) n = c :: t from hct]; simp)
  rw [show natChars n = c :: t from hct, List.cons_append, skipWs_not_ws hcw]

theorem skipWs_intChars (i : ℤ) (r : List Char) :
    skipWs (intChars i ++ r) = intChars i ++ r := by
  unfold intChars
  by_cases hi : i < 0
  · rw [if_pos hi, List.cons_append,
      skipWs_not_ws (show isWsCh '-' = false by decide)]
  · rw [if_neg hi]
    exact skipWs_natChars i.toNat r

theorem pKey_spec {w : List Char} (hw : WsOk w) (k : String) (r : List Char) :
    pKey k (w ++ (jsonKey k ++ r)) = some r := by
  unfold pKey jsonKey
  exact pTok_spec hw (by decide) (k.data ++ ['"', ':']) r

theorem pStrField_spec {w1 w2 : List Char} (hw1 : WsOk w1) (hw2 : WsOk w2)
    (k : String) (s r : List Char) :
    pStrField k (w1 ++ (jsonKey k ++ (w2 ++ (jsonString s ++ r))))
      = some (s, r) := by
  unfold pStrField
  rw [pKey_spec hw1 k (w2 ++ (jsonString s ++ r))]
  show pString (w2 ++ (jsonString s ++ r)) = some (s, r)
  exact pString_spec hw2 s r

theorem pCharField_spec {w1 w2 : List Char} (hw1 : WsOk w1) (hw2 : WsOk w2)
    (k : String) (c : Char) (r : List Char) :
    pCharField k (w1 ++ (jsonKey k ++ (w2 ++ (jsonString [c] ++ r))))
      = some (c, r) := by
  unfold pCharField
  rw [pStrField_spec hw1 hw2 k [c] r]
  rfl

theorem clsOfChars_clsChars (cls : PairClass) :
    clsOfChars (clsChars cls) = some cls := by
  cases cls <;> rfl

theorem pClsField_spec {w1 w2 : List Char} (hw1 : WsOk w1) (hw2 : WsOk w2)
    (k : String) (cls : PairClass) (r : List Char) :
    pClsField k (w1 ++ (jsonKey k ++ (w2 ++ (jsonString (clsChars cls) ++ r))))
      = some (cls, r) := by
  unfold pClsField
  rw [pStrField_spec hw1 hw2 k (clsChars cls) r]
  show (match clsOfChars (clsChars cls) with
    | some x => some (x, r)
    | none => none) = some (cls, r)
  rw [clsOfChars_clsChars cls]

theorem pNatField_spec {w1 w2 r : List Char} (hw1 : WsOk w1) (hw2 : WsOk w2)
    (hr : NotDigitHead r) (k : String) (n : ℕ) :
    pNatField k (w1 ++ (jsonKey k ++ (w2 ++ (natChars n ++ r))))
      = some (n, r) := by
  unfold pNatField
  rw [pKey_spec hw1 k (w2 ++ (natChars n ++ r))]
  show pNat (skipWs (w2 ++ (natChars n ++ r))) = some (n, r)
  rw [skipWs_ws_append w2 hw2, skipWs_natChars]
  exact pNat_spec hr n

theorem pIntField_spec {w1 w2 r : List Char} (hw1 : WsOk w1) (hw2 : WsOk w2)
    (hr : NotDigitHead r) (k : String) (i : ℤ) :
    pIntField k (w1 ++ (jsonKey k ++ (w2 ++ (intChars i ++ r))))
      = some (i, r) := by
  unfold pIntField
  rw [pKey_spec hw1 k (w2 ++ (intChars i ++ r))]
  show pInt (skipWs (w2 ++ (intChars i ++ r))) = some (i, r)
  rw [skipWs_ws_append w2 hw2, skipWs_intChars]
  exact pInt_spec hr i

theorem pTok1_head {c : Char} (hc : isWsCh c = false) (r : List Char) :
    pTok [c] (c :: r) = some r := by
  unfold pTok
  rw [skipWs_not_ws hc]
  simpa using expectTok_append [c] r

theorem pTok1_ws {w : List Char} (hw : WsOk w) {c : Char}
    (hc : isWsCh c = false) (r : List Char) :
    pTok [c] (w ++ c :: r) = some r := by
  unfold pTok
  rw [skipWs_ws_append w hw, skipWs_not_ws hc]
  simpa using expectTok_append [c] r

theorem ws_not_digit {c : Char} (hc : isWsCh c = true) :
    isDigitCh c = false := by
  unfold isWsCh at hc
  simp only [Bool.or_eq_true, decide_eq_true_eq] at hc
  rcases hc with ((h | h) | h) | h <;> subst h <;> decide

theorem notDigitHead_cons {c : Char} (hc : isDigitCh c = false)
    (l : List Char) : NotDigitHead (c :: l) := by
  intro c' h
  simp only [List.head?_cons, Option.some.injEq] at h
  exact h ▸ hc

theorem notDigitHead_ws {w : List Char} (hw : WsOk w) {c : Char}
    (hc : isDigitCh c = false) (l : List Char) :
    NotDigitHead (w ++ c :: l) := by
  cases w with
  | nil => exact notDigitHead_cons hc l
  | cons a t =>
      have ha : isWsCh a = true := hw a (by simp)
      exact notDigitHead_cons (ws_not_digit ha) (t ++ c :: l)

theorem pSegObj_spec {w0 : List Char} (h0 : WsOk w0) {w : JsonWs}
    (hst : WsStyleOk w) (s : CodecSeg) (r : List Char) :
    pSegObj (w0 ++ (renderSegObj w s ++ r)) = some (s, r) := by
  obtain ⟨_, hC, _, _, _, hI, hE⟩ := hst
  unfold pSegObj renderSegObj
  simp only [List.cons_append, List.append_assoc, List.nil_append]
  rw [pTok1_ws h0 (by decide)]
  simp only [Option.bind_eq_bind, Option.some_bind, List.nil_append]
  rw [pCharField_spec hI hC "a" s.a]
  simp only [Option.bind_eq_bind, Option.some_bind, List.nil_append]
  rw [pTok1_head (by decide)]
  simp only [Option.bind_eq_bind, Option.some_bind, List.nil_append]
  rw [pCharField_spec hI hC "b" s.b]
  simp only [Option.bind_eq_bind, Option.some_bind, List.nil_append]
  rw [pTok1_head (by decide)]
  simp only [Option.bind_eq_bind, Option.some_bind, List.nil_append]
  rw [pClsField_spec hI hC "cls" s.cls]
  simp only [Option.bind_eq_bind, Option.some_bind, List.nil_append]
  rw [pTok1_head (by decide)]
  simp only [Option.bind_eq_bind, Option.some_bind, List.nil_append]
  rw [pIntField_spec hI hC (notDigitHead_cons (by decide) _) "dir" s.dir]
  simp only [Option.bind_eq_bind, Option.some_bind, List.nil_append]
  rw [pTok1_head (by decide)]
  simp only [Option.bind_eq_bind, Option.some_bind, List.nil_append]
  rw [pNatField_spec hI hC (notDigitHead_ws hE (by decide) r) "lb" s.lb]
  simp only [Option.bind_eq_bind, Option.some_bind, List.nil_append]
  rw [pTok1_ws hE (by decide)]
  rfl

theorem renderSegsTail_length {w : JsonWs} :
    ∀ segs : List CodecSeg, segs.length < (renderSegsTail w segs).length := by
  intro segs
  induction segs with
  | nil =>
      simp [renderSegsTail]
  | cons s rest ih =>
      simp only [renderSegsTail, List.length_cons, List.length_append]
      omega

theorem pSegsTail_spec {w : JsonWs} (hst : WsStyleOk w) :
    ∀ (segs : List CodecSeg) (fuel : ℕ) (r : List Char),
      segs.length < fuel →
      pSegsTail fuel (renderSegsTail w segs ++ r) = some (segs, r) := by
  obtain ⟨hO, hC, hE0, hA, hAE, hI, hE⟩ := hst
  intro segs
  induction segs with
  | nil =>
      intro fuel r hf
      obtain ⟨f, rfl⟩ : ∃ f, fuel = f + 1 := ⟨fuel - 1, by omega⟩
      rw [pSegsTail]
      unfold renderSegsTail
      simp only [List.append_assoc, List.cons_append, List.nil_append]
      rw [skipWs_ws_append _ hAE, skipWs_not_ws (by decide)]
      rfl
  | cons s rest ih =>
      intro fuel r hf
      obtain ⟨f, rfl⟩ : ∃ f, fuel = f + 1 := ⟨fuel - 1, by omega⟩
      rw [pSegsTail]
      rw [renderSegsTail]
      simp only [List.append_assoc, List.cons_append, List.nil_append]
      rw [skipWs_not_ws (by decide)]
      show (do
          let p1 ← pSegObj (w.arrItem ++ (renderSegObj w s ++
            (renderSegsTail w rest ++ r)))
          let p2 ← pSegsTail f p1.2
          some (p1.1 :: p2.1, p2.2)) = some (s :: rest, r)
      rw [pSegObj_spec hA ⟨hO, hC, hE0, hA, hAE, hI, hE⟩ s
        (renderSegsTail w rest ++ r)]
      simp only [Option.bind_eq_bind, Option.some_bind]
      rw [ih f r (by simp at hf; omega)]
      rfl

theorem pSegArr_spec {w2 : List Char} (h2 : WsOk w2) {w : JsonWs}
    (hst : WsStyleOk w) (segs : List CodecSeg) (r : List Char) :
    pSegArr (w2 ++ (renderSegArr w segs ++ r)) = some (segs, r) := by
  obtain ⟨hO, hC, hE0, hA, hAE, hI, hE⟩ := hst
  cases segs with
  | nil =>
      unfold pSegArr renderSegArr
      simp only [List.append_assoc, List.cons_append, List.nil_append]
      rw [skipWs_ws_append _ h2, skipWs_not_ws (by decide)]
      show pSegArrCont (']' :: r) = some ([], r)
      unfold pSegArrCont
      rw [skipWs_not_ws (by decide)]
      rfl
  | cons s rest =>
      unfold pSegArr renderSegArr
      simp only [List.append_assoc, List.cons_append, List.nil_append]
      rw [skipWs_ws_append _ h2, skipWs_not_ws (by decide)]
      show pSegArrCont (w.arrItem ++ (renderSegObj w s ++
        (renderSegsTail w rest ++ r))) = some (s :: rest, r)
      unfold pSegArrCont
      have hskip : skipWs (w.arrItem ++ (renderSegObj w s ++
          (renderSegsTail w rest ++ r)))
          = '\x7b' :: (w.segItem ++ (jsonKey "a" ++ (w.colon ++
            (jsonString [s.a] ++
            ',' :: (w.segItem ++ (jsonKey "b" ++ (w.colon ++
            (jsonString [s.b] ++
            ',' :: (w.segItem ++ (jsonKey "cls" ++ (w.colon ++
            (jsonString (clsChars s.cls) ++
            ',' :: (w.segItem ++ (jsonKey "dir" ++ (w.colon ++
            (intChars s.dir ++
            ',' :: (w.segItem ++ (jsonKey "lb" ++ (w.colon ++
            (natChars s.lb ++
            (w.segEnd ++ ('\x7d' :: (renderSegsTail w rest ++ r)))
            )))))))))))))))))))) := by
        rw [skipWs_ws_append _ hA]
        unfold renderSegObj
        simp only [List.append_assoc, List.cons_append, List.nil_append]
        rw [skipWs_not_ws (by decide)]
      rw [hskip]
      show (do
          let p1 ← pSegObj (w.arrItem ++ (renderSegObj w s ++
            (renderSegsTail w rest ++ r)))
          let p2 ← pSegsTail p1.2.length p1.2
          some (p1.1 :: p2.1, p2.2)) = some (s :: rest, r)
      rw [pSegObj_spec hA ⟨hO, hC, hE0, hA, hAE, hI, hE⟩ s
        (renderSegsTail w rest ++ r)]
      simp only [Option.bind_eq_bind, Option.some_bind]
      rw [pSegsTail_spec ⟨hO, hC, hE0, hA, hAE, hI, hE⟩ rest
        (renderSegsTail w rest ++ r).length r
        (by
          have hlen := renderSegsTail_length (w := w) rest
          simp only [List.length_append]
          omega)]
      rfl

theorem pCodecHead_spec {w : JsonWs} (hst : WsStyleOk w)
    (v l d c rest : List Char) :
    pCodecHead ('\x7b' :: (w.objItem ++ (jsonKey "v" ++ (w.colon ++
      (jsonString v ++ ',' :: (w.objItem ++ (jsonKey "layout" ++ (w.colon ++
      (jsonString l ++ ',' :: (w.objItem ++ (jsonKey "dash" ++ (w.colon ++
      (jsonString d ++ ',' :: (w.objItem ++ (jsonKey "color" ++ (w.colon ++
      (jsonString c ++ ',' :: rest)))))))))))))))))
      = some ((v, l, d, c), rest) := by
  obtain ⟨hO, hC, hE0, hA, hAE, hI, hE⟩ := hst
  unfold pCodecHead
  rw [pTok1_head (by decide)]
  simp only [Option.bind_eq_bind, Option.some_bind, List.nil_append]
  rw [pStrField_spec hO hC "v" v]
  simp only [Option.bind_eq_bind, Option.some_bind, List.nil_append]
  rw [pTok1_head (by decide)]
  simp only [Option.bind_eq_bind, Option.some_bind, List.nil_append]
  rw [pStrField_spec hO hC "layout" l]
  simp only [Option.bind_eq_bind, Option.some_bind, List.nil_append]
  rw [pTok1_head (by decide)]
  simp only [Option.bind_eq_bind, Option.some_bind, List.nil_append]
  rw [pStrField_spec hO hC "dash" d]
  simp only [Option.bind_eq_bind, Option.some_bind, List.nil_append]
  rw [pTok1_head (by decide)]
  simp only [Option.bind_eq_bind, Option.some_bind, List.nil_append]
  rw [pStrField_spec hO hC "color" c]
  simp only [Option.bind_eq_bind, Option.some_bind, List.nil_append]
  rw [pTok1_head (by decide)]
  rfl

theorem pCodec_spec {w : JsonWs} (hst : WsStyleOk w) (r : Codec)
    (rest : List Char) :
    pCodec (renderCodec w r ++ rest) = some (r, rest) := by
  obtain ⟨hO, hC, hE0, hA, hAE, hI, hE⟩ := hst
  unfold pCodec renderCodec
  simp only [List.cons_append, List.append_assoc, List.nil_append]
  rw [pCodecHead_spec ⟨hO, hC, hE0, hA, hAE, hI, hE⟩]
  simp only [Option.bind_eq_bind, Option.some_bind, List.nil_append]
  rw [pNatField_spec hO hC (notDigitHead_cons (by decide) _) "len" r.len]
  simp only [Option.bind_eq_bind, Option.some_bind, List.nil_append]
  rw [pTok1_head (by decide)]
  simp only [Option.bind_eq_bind, Option.some_bind, List.nil_append]
  rw [pStrField_spec hO hC "hash" r.hash.data]
  simp only [Option.bind_eq_bind, Option.some_bind, List.nil_append]
  rw [pTok1_head (by decide)]
  simp only [Option.bind_eq_bind, Option.some_bind, List.nil_append]
  rw [pKey_spec hO "seg"]
  simp only [Option.bind_eq_bind, Option.some_bind, List.nil_append]
  rw [pSegArr_spec hC ⟨hO, hC, hE0, hA, hAE, hI, hE⟩ r.seg]
  simp only [Option.bind_eq_bind, Option.some_bind, List.nil_append]
  rw [pTok1_ws hE0 (by decide)]
  rfl

theorem wsStyleOk_pretty : WsStyleOk prettyWs := by
  unfold WsStyleOk WsOk prettyWs
  decide

theorem wsStyleOk_compact : WsStyleOk compactWs := by
  unfold WsStyleOk WsOk compactWs
  decide

theorem parseCodecText_serialize (r : Codec) :
    parseCodecText (serializeCodecText r) = some r := by
  have h : pCodec (renderCodec prettyWs r) = some (r, []) := by
    have h2 := pCodec_spec wsStyleOk_pretty r []
    rwa [List.append_nil] at h2
  have hd : (serializeCodecText r).data = renderCodec prettyWs r := rfl
  unfold parseCodecText
  rw [hd, h]
  rfl

theorem mem_escapeXml_ne_lt :
    ∀ (l : List Char), ∀ x ∈ escapeXml l, ¬ x = '<' := by
  intro l
  induction l with
  | nil => intro x hx; simp [escapeXml] at hx
  | cons c t ih =>
      intro x hx
      rw [show escapeXml (c :: t) = escapeXmlChar c ++ escapeXml t from by
        simp [escapeXml]] at hx
      rcases List.mem_append.mp hx with h | h
      · by_cases h1 : c = '<'
        · subst h1
          rw [show escapeXmlChar '<' = ['&', 'l', 't', ';'] from by decide] at h
          fin_cases h <;> decide
        · by_cases h2 : c = '>'
          · subst h2
            rw [show escapeXmlChar '>' = ['&', 'g', 't', ';'] from by decide]
              at h
            fin_cases h <;> decide
          · by_cases h3 : c = '&'
            · subst h3
              rw [show escapeXmlChar '&' = ['&', 'a', 'm', 'p', ';'] from by
                decide] at h
              fin_cases h <;> decide
            · by_cases h4 : c = '\''
              · subst h4
                rw [show escapeXmlChar '\'' = ['&', 'a', 'p', 'o', 's', ';']
                  from by decide] at h
                fin_cases h <;> decide
              · by_cases h5 : c = '"'
                · subst h5
                  rw [show escapeXmlChar '"' = ['&', 'q', 'u', 'o', 't', ';']
                    from by decide] at h
                  fin_cases h <;> decide
                · rw [show escapeXmlChar c = [c] from by
                    simp [escapeXmlChar, h1, h2, h3, h4, h5]] at h
                  rw [List.mem_singleton] at h
                  exact h ▸ h1
      · exact ih x h

theorem unescapeXml_step (c : Char) (r : List Char) :
    unescapeXml (escapeXmlChar c ++ r) = c :: unescapeXml r := by
  by_cases h1 : c = '<'
  · subst h1
    rw [show escapeXmlChar '<' = ['&', 'l', 't', ';'] from by decide]
    rw [show (['&', 'l', 't', ';'] : List Char) ++ r
      = '&' :: 'l' :: 't' :: ';' :: r from rfl]
    rw [unescapeXml]
    simp [unescapeStep]
  · by_cases h2 : c = '>'
    · subst h2
      rw [show escapeXmlChar '>' = ['&', 'g', 't', ';'] from by decide]
      rw [show (['&', 'g', 't', ';'] : List Char) ++ r
        = '&' :: 'g' :: 't' :: ';' :: r from rfl]
      rw [unescapeXml]
      simp [unescapeStep]
    · by_cases h3 : c = '&'
      · subst h3
        rw [show escapeXmlChar '&' = ['&', 'a', 'm', 'p', ';'] from by decide]
        rw [show (['&', 'a', 'm', 'p', ';'] : List Char) ++ r
          = '&' :: 'a' :: 'm' :: 'p' :: ';' :: r from rfl]
        rw [unescapeXml]
        simp [unescapeStep]
      · by_cases h4 : c = '\''
        · subst h4
          rw [show escapeXmlChar '\'' = ['&', 'a', 'p', 'o', 's', ';']
            from by decide]
          rw [show (['&', 'a', 'p', 'o', 's', ';'] : List Char) ++ r
            = '&' :: 'a' :: 'p' :: 'o' :: 's' :: ';' :: r from rfl]
          rw [unescapeXml]
          simp [unescapeStep]
        · by_cases h5 : c = '"'
          · subst h5
            rw [show escapeXmlChar '"' = ['&', 'q', 'u', 'o', 't', ';']
              from by decide]
            rw [show (['&', 'q', 'u', 'o', 't', ';'] : List Char) ++ r
              = '&' :: 'q' :: 'u' :: 'o' :: 't' :: ';' :: r from rfl]
            rw [unescapeXml]
            simp [unescapeStep]
          · rw [show escapeXmlChar c = [c] from by
              simp [escapeXmlChar, h1, h2, h3, h4, h5]]
            rw [show ([c] : List Char) ++ r = c :: r from rfl]
            rw [unescapeXml]
            simp [unescapeStep, h3]

theorem unescape_escape (l : List Char) :
    unescapeXml (escapeXml l) = l := by
  induction l with
  | nil =>
      rw [show escapeXml [] = [] from by simp [escapeXml]]
      rw [unescapeXml]
  | cons c t ih =>
      rw [show escapeXml (c :: t) = escapeXmlChar c ++ escapeXml t from by
        simp [escapeXml]]
      rw [unescapeXml_step, ih]

theorem parseCodecEmbedded_serialize (r : Codec) :
    parseCodecEmbedded (serializeCodecEmbedded r) = some r := by
  have hdata : (serializeCodecEmbedded r).data
      = svgHeadChars ++ (escapeXml (serializeCodecCompact r) ++ svgTailChars)
      := by
    show svgHeadChars ++ escapeXml (serializeCodecCompact r) ++ svgTailChars
      = _
    rw [List.append_assoc]
  have htake : (escapeXml (serializeCodecCompact r)
        ++ svgTailChars).takeWhile (fun c => !(c == '<'))
      = escapeXml (serializeCodecCompact r) := by
    apply takeWhile_append_not
    · intro x hx
      have := mem_escapeXml_ne_lt _ x hx
      simp [this]
    · intro c h
      rw [show svgTailChars.head? = some '<' from by decide] at h
      simp only [Option.some.injEq] at h
      subst h
      decide
  unfold parseCodecEmbedded embeddedPayload
  rw [hdata, List.drop_left, htake, List.drop_left]
  rw [if_pos (List.isPrefixOf_iff_prefix.mpr (List.prefix_append _ _)),
    if_pos rfl]
  rw [unescape_escape]
  have h : pCodec (serializeCodecCompact r) = some (r, []) := by
    have h2 := pCodec_spec wsStyleOk_compact r []
    rw [List.append_nil] at h2
    exact h2
  rw [h]
  rfl

/-- C9: serializing a codec record to its structured text form
(`JSON.stringify(codec, null, 2)`) and to its markup-embeddable form
(the SVG document of `exportCODECsvg`, whose metadata holds the compact
JSON passed through `escapeXml`) and parsing each back yields the
original record; `escapeXml` replaces exactly the five markup special
characters `<` `>` `&` `'` `"` by their entities in a
single pass, leaves every other character unchanged, and escaping
followed by standard entity unescaping is the identity on every
string. -/
theorem codec_roundtrip :
    (∀ s : String, unescapeXml (escapeXml s.data) = s.data) ∧
    escapeXml ['<'] = ('&' :: 'l' :: 't' :: ';' :: []) ∧
    escapeXml ['>'] = ('&' :: 'g' :: 't' :: ';' :: []) ∧
    escapeXml ['&'] = ('&' :: 'a' :: 'm' :: 'p' :: ';' :: []) ∧
    escapeXml ['\''] = ('&' :: 'a' :: 'p' :: 'o' :: 's' :: ';' :: []) ∧
    escapeXml ['"'] = ('&' :: 'q' :: 'u' :: 'o' :: 't' :: ';' :: []) ∧
    (∀ c : Char, ¬ c = '<' → ¬ c = '>' → ¬ c = '&' → ¬ c = '\'' →
      ¬ c = '"' → escapeXml [c] = [c]) ∧
    (∀ r : Codec, parseCodecText (serializeCodecText r) = some r) ∧
    (∀ r : Codec, parseCodecEmbedded (serializeCodecEmbedded r) = some r)
    := by
  refine ⟨fun s => unescape_escape s.data, by decide, by decide, by decide,
    by decide, by decide, ?_, parseCodecText_serialize,
    parseCodecEmbedded_serialize⟩
  intro c h1 h2 h3 h4 h5
  show escapeXmlChar c ++ escapeXml [] = [c]
  rw [show escapeXml [] = [] from by simp [escapeXml], List.append_nil]
  simp [escapeXmlChar, h1, h2, h3, h4, h5]

/-- Witness for `codec_roundtrip`: the no-escape branch at the
concrete character `x`, and the text round-trip at a concrete record. -/
theorem codec_roundtrip_witness :
    escapeXml ['x'] = ['x'] ∧
    parseCodecText (serializeCodecText
      ⟨"ab", "qwerty", "uniform", "mono", 2, "d03d7372",
        [⟨'a', 'b', PairClass.LL, 0, 1⟩]⟩) = some
      ⟨"ab", "qwerty", "uniform", "mono", 2, "d03d7372",
        [⟨'a', 'b', PairClass.LL, 0, 1⟩]⟩ :=
  ⟨codec_roundtrip.2.2.2.2.2.2.1 'x' (by decide) (by decide) (by decide)
      (by decide) (by decide),
    codec_roundtrip.2.2.2.2.2.2.2.1
      ⟨"ab", "qwerty", "uniform", "mono", 2, "d03d7372",
        [⟨'a', 'b', PairClass.LL, 0, 1⟩]⟩⟩

end KeySign
